import Mathlib

/-!
# The collector orchestrator of postgres_exporter (`collector/collector.go`)

A shallow embedding of the package-level registry, `registerCollector`,
`NewPostgresCollector`, `Collect` / `subCollect` / `execute` and the
`ErrNoData` classifier, followed by the properties proved about them.

Conventions of the embedding:

* a Go `map[string]V` is an `AList` (association list with distinct keys); the
  order of its entries is the order in which a `range` loop visits them, and
  every statement is quantified over all such orders;
* a nilable Go value is an `Option`; `error` below is a non-nil error value;
* calls that leave the file (a collector factory, `makeServer`, `Update`) are
  supplied by the environment; a factory and `makeServer` may answer
  differently each time they are called, so they also receive the number of
  external calls made before;
* goroutines: `Collect` is given once as a function that runs the units one
  after the other, and once as the relation `CollectRun` that admits every
  interleaving of the units' writes;
* `NewPostgresCollector` holds `initiatedCollectorsMtx` from before its second
  loop until it returns, so calls are taken one at a time and the mutex itself
  is not represented.
-/

namespace collector

/-! ## Go values -/

/-- A Go map with string keys. -/
abbrev GoMap (V : Type) : Type := AList (fun _ : String => V)

/-- The value `m[k]` of a `map[string]bool`: `false` when the key is absent. -/
def GoMap.index (m : GoMap Bool) (k : String) : Bool :=
  (m.lookup k).getD false

/-- The builtin `len` on a map. -/
def GoMap.len {V : Type} (m : GoMap V) : Nat :=
  m.entries.length

/-- A non-nil Go error value. Two error values are `==` exactly when they are
the same constructor with the same arguments: `sentinel` is the one value held
by the package variable `ErrNoData`, `errorf` is a value built by `fmt.Errorf`
in this file, and `other id msg` is any error value made elsewhere (by a
collector, a factory or `makeServer`), `id` telling apart values that carry the
same text. -/
inductive error where
  | sentinel
  | errorf (msg : String)
  | other (id : Nat) (msg : String)
deriving DecidableEq, Repr

/-- The method `Error()`: the text of an error value. -/
def error.Error : error → String
  | .sentinel => "collector returned no data"
  | .errorf msg => msg
  | .other _ msg => msg

/-- `var ErrNoData = errors.New("collector returned no data")`. -/
def ErrNoData : error := error.sentinel

/-- `func IsNoDataError(err error) bool { return err == ErrNoData }`. -/
def IsNoDataError (err : Option error) : Bool :=
  decide (err = some ErrNoData)

/-- A `time.Duration`, in nanoseconds. -/
abbrev Duration : Type := Int

/-- A `float64` sample value: either `d.Seconds()` for a duration `d`, kept
symbolic, or an integer literal. -/
inductive float64 where
  | seconds (d : Duration)
  | lit (n : Int)
deriving DecidableEq, Repr

/-! ## Metrics -/

/-- A `prometheus.Desc`: fully qualified name, help text, variable labels. -/
structure Desc where
  fqName : String
  help : String
  variableLabels : List String
deriving DecidableEq, Repr

/-- `prometheus.BuildFQName` on three non-empty parts. -/
def BuildFQName (ns subsystem name : String) : String :=
  ns ++ "_" ++ subsystem ++ "_" ++ name

/-- `const namespace = "pg"`. -/
def namespace_ : String := "pg"

/-- The descriptor of the per-collector duration metric. -/
def scrapeDurationDesc : Desc :=
  { fqName := BuildFQName namespace_ "scrape" "collector_duration_seconds"
    help := "postgres_exporter: Duration of a collector scrape."
    variableLabels := ["collector"] }

/-- The descriptor of the per-collector success metric. -/
def scrapeSuccessDesc : Desc :=
  { fqName := BuildFQName namespace_ "scrape" "collector_success"
    help := "postgres_exporter: Whether a collector succeeded."
    variableLabels := ["collector"] }

/-- A `prometheus.Metric` as built by `MustNewConstMetric` (all are gauges). -/
structure Metric where
  desc : Desc
  value : float64
  labelValues : List String
deriving DecidableEq, Repr

/-- Whether a sample belongs to the duration metric. -/
def Metric.isDuration (m : Metric) : Bool := decide (m.desc = scrapeDurationDesc)

/-- Whether a sample belongs to the success metric. -/
def Metric.isSuccess (m : Metric) : Bool := decide (m.desc = scrapeSuccessDesc)

/-! ## Logging -/

/-- The severities used in the file. -/
inductive Level where
  | debug
  | error
deriving DecidableEq, Repr

/-- One `level.X(logger).Log(...)` record with the key/values the file logs. -/
structure LogRecord where
  lvl : Level
  msg : String
  name : String
  duration_seconds : float64
  err : Option error
deriving DecidableEq, Repr

/-- A `log.Logger`: the key/value context attached with `log.With`. -/
structure Logger where
  ctx : List (String × String)
deriving DecidableEq, Repr

/-- `log.With(logger, key, value)`. -/
def Logger.With (l : Logger) (key value : String) : Logger :=
  { ctx := l.ctx ++ [(key, value)] }

/-! ## Servers and collectors -/

/-- Modelled from the spec: the declaration of the type `server` is not among
the sources. A server handle "represents one addressable target" and is held
through a pointer, so a handle is told apart by its address `id` alone. -/
structure server where
  id : Nat
deriving DecidableEq, Repr

/-- What one call `c.Update(ctx, s, ch)` does, as seen by `execute`: the
samples it sends on `ch`, the error it returns (`none` for `nil`), and the
reading of `time.Since(begin)` taken right after it. -/
structure UpdateCall where
  samples : List Metric
  err : Option error
  elapsed : Duration

/-- The interface `Collector`: an instance, told apart by its address `addr`,
with its method `Update` (the context is `context.TODO()` and carries
nothing). -/
structure Collector where
  addr : Nat
  Update : server → UpdateCall

/-- What a run writes: the samples sent on the channel and the log records,
both in the order in which they were written. -/
structure Effects where
  sent : List Metric
  logged : List LogRecord

/-- Sequential composition of effects. -/
def Effects.append (a b : Effects) : Effects :=
  { sent := a.sent ++ b.sent, logged := a.logged ++ b.logged }

/-- The struct `PostgresCollector`. -/
structure PostgresCollector where
  Collectors : GoMap Collector
  logger : Logger
  servers : GoMap server

/-! ## `execute`, `subCollect`, `Collect` -/

/-- The function `execute`: run `Update`, log the outcome, then send the
duration sample and the success sample. -/
def execute (name : String) (c : Collector) (s : server) : Effects :=
  let u := c.Update s
  let duration : Duration := u.elapsed
  let r : LogRecord × float64 :=
    match u.err with
    | some err =>
      if IsNoDataError (some err) then
        (⟨Level.debug, "collector returned no data", name, .seconds duration, some err⟩,
          float64.lit 0)
      else
        (⟨Level.error, "collector failed", name, .seconds duration, some err⟩,
          float64.lit 0)
    | none =>
      (⟨Level.debug, "collector succeeded", name, .seconds duration, none⟩, float64.lit 1)
  { sent := u.samples ++
      [⟨scrapeDurationDesc, .seconds duration, [name]⟩, ⟨scrapeSuccessDesc, r.2, [name]⟩]
    logged := [r.1] }

/-- The units of work `subCollect` starts for one server: one `execute` per
entry of `n.Collectors`. -/
def subCollectUnits (n : PostgresCollector) (s : server) : List Effects :=
  n.Collectors.entries.map (fun e => execute e.1 e.2 s)

/-- The method `subCollect` when its goroutines run one after the other. -/
def subCollect (n : PostgresCollector) (s : server) : Effects :=
  (subCollectUnits n s).foldr Effects.append ⟨[], []⟩

/-- The method `Collect` when its goroutines run one after the other. -/
def Collect (n : PostgresCollector) : Effects :=
  (n.servers.entries.map (fun e => subCollect n e.2)).foldr Effects.append ⟨[], []⟩

/-- `Shuffle l r o`: `o` merges `l` and `r`, keeping the order inside each. -/
inductive Shuffle {α : Type} : List α → List α → List α → Prop where
  | nil : Shuffle [] [] []
  | left {x : α} {l r o : List α} : Shuffle l r o → Shuffle (x :: l) r (x :: o)
  | right {x : α} {l r o : List α} : Shuffle l r o → Shuffle l (x :: r) (x :: o)

/-- `Interleaving ls o`: `o` merges all the lists of `ls`, keeping the order
inside each: what concurrent writers, each writing one list of `ls` in order,
can leave on a shared channel. -/
inductive Interleaving {α : Type} : List (List α) → List α → Prop where
  | nil : Interleaving [] []
  | cons {l o' o : List α} {ls : List (List α)} :
      Shuffle l o' o → Interleaving ls o' → Interleaving (l :: ls) o

/-- The samples one `subCollect` call can leave on the channel: any
interleaving of what its `execute` goroutines send. -/
def subCollectRun (n : PostgresCollector) (s : server) (out : List Metric) : Prop :=
  Interleaving ((subCollectUnits n s).map Effects.sent) out

/-- The samples one `Collect` call can leave on the channel: any interleaving
of what its `subCollect` goroutines leave, one per entry of `n.servers`. -/
def CollectRun (n : PostgresCollector) (out : List Metric) : Prop :=
  ∃ outs : List (List Metric),
    List.Forall₂ (fun e o => subCollectRun n e.2 o) n.servers.entries outs ∧
    Interleaving outs out

/-! ## The package-level registry -/

/-- What a factory `func(logger log.Logger) (Collector, error)` returns: an
instance, or the error it reports. The factories are not in this file; one that
reports no error is taken to supply an instance. -/
abbrev FactoryResult : Type := Except error Collector

/-- A collector factory. Its second argument is the number of external calls
(factories and `makeServer`) made before this one, so that a factory may answer
differently each time it is called. -/
abbrev Factory : Type := Logger → Nat → FactoryResult

/-- The package function `makeServer(dsn)`, whose body is not among the
sources: it is a parameter of the embedding. Its second argument is the number
of external calls made before this one. -/
abbrev MakeServer : Type := String → Nat → Except error server

/-- A kingpin boolean flag as `registerCollector` creates it: its name, help
text and default, and the `bool` its pointer refers to (`false` until the
command line is parsed). -/
structure Flag where
  name : String
  help : String
  dflt : String
  value : Bool
deriving DecidableEq, Repr

/-- One call that leaves the file, with what it returned. -/
inductive Event where
  | factory (key : String) (logger : Logger) (res : FactoryResult)
  | makeServer (dsn : String) (res : Except error server)

/-- The package variables `factories`, `initiatedCollectors`, `collectorState`
and `forcedCollectors`, together with `calls`, the record of every factory and
`makeServer` call made so far, newest first (not a variable of the program). -/
structure Globals where
  factories : GoMap Factory
  initiatedCollectors : GoMap Collector
  collectorState : GoMap Flag
  forcedCollectors : GoMap Bool
  calls : List Event

/-- `fmt.Sprintf("%v", b)` for a `bool`. -/
def sprintBool (b : Bool) : String := if b then "true" else "false"

/-- The function `registerCollector`. It returns nothing; its effect is on the
package variables. -/
def registerCollector (g : Globals) (name : String) (isDefaultEnabled : Bool)
    (createFunc : Factory) : Globals :=
  let helpDefaultState := if isDefaultEnabled then "enabled" else "disabled"
  let flagName := "collector." ++ name
  let flagHelp := "Enable the " ++ name ++ " collector (default: " ++ helpDefaultState ++ ")."
  let defaultValue := sprintBool isDefaultEnabled
  let flag : Flag := { name := flagName, help := flagHelp, dflt := defaultValue, value := false }
  { g with
    collectorState := g.collectorState.insert name flag
    factories := g.factories.insert name createFunc }

/-- The function returned by `collectorFlagAction(collector)`, run by kingpin
when the flag is given on the command line. -/
def collectorFlagAction (collector : String) (g : Globals) : Globals × Option error :=
  ({ g with forcedCollectors := g.forcedCollectors.insert collector true }, none)

/-! ## `NewPostgresCollector` -/

/-- How a call ends: it returns its two results (`none` for `nil`), or it
panics (a call through a nil function value). -/
inductive Outcome where
  | ret (pc : Option PostgresCollector) (err : Option error)
  | panic

/-- The first loop of `NewPostgresCollector`, over `filters`: the set `f`, or
the error of the first name that is missing or disabled. -/
def filterLoop (collectorState : GoMap Flag) :
    List String → GoMap Bool → Except error (GoMap Bool)
  | [], f => .ok f
  | filter :: rest, f =>
    match collectorState.lookup filter with
    | none => .error (error.errorf ("missing collector: " ++ filter))
    | some enabled =>
      if !enabled.value then .error (error.errorf ("disabled collector: " ++ filter))
      else filterLoop collectorState rest (f.insert filter true)

/-- How the second loop ends. -/
inductive LoopEnd where
  | done (collectors : GoMap Collector)
  | failed (err : error)
  | panicked

/-- The second loop of `NewPostgresCollector`, over the entries of
`collectorState` in the order given. -/
def collectorLoop (logger : Logger) (f : GoMap Bool) :
    List (Sigma fun _ : String => Flag) → GoMap Collector → Globals → Globals × LoopEnd
  | [], collectors, g => (g, .done collectors)
  | ⟨key, enabled⟩ :: rest, collectors, g =>
    if !enabled.value || (decide (f.len > 0) && !f.index key) then
      collectorLoop logger f rest collectors g
    else
      match g.initiatedCollectors.lookup key with
      | some collector => collectorLoop logger f rest (collectors.insert key collector) g
      | none =>
        match g.factories.lookup key with
        | none => (g, .panicked)
        | some create =>
          let res := create (logger.With "collector" key) g.calls.length
          let g1 := { g with calls := Event.factory key (logger.With "collector" key) res :: g.calls }
          match res with
          | .error err => (g1, .failed err)
          | .ok collector =>
            collectorLoop logger f rest (collectors.insert key collector)
              { g1 with initiatedCollectors := g1.initiatedCollectors.insert key collector }

/-- The third loop of `NewPostgresCollector`, over `dsns`. -/
def serverLoop (makeServer : MakeServer) :
    List String → GoMap server → List Event → List Event × Except error (GoMap server)
  | [], servers, calls => (calls, .ok servers)
  | dsn :: rest, servers, calls =>
    let res := makeServer dsn calls.length
    match res with
    | .error err => (Event.makeServer dsn res :: calls, .error err)
    | .ok s => serverLoop makeServer rest (servers.insert dsn s) (Event.makeServer dsn res :: calls)

/-- The function `NewPostgresCollector`: the package variables after the call
and how the call ended. -/
def NewPostgresCollector (makeServer : MakeServer) (g : Globals) (logger : Logger)
    (dsns : List String) (filters : List String) : Globals × Outcome :=
  match filterLoop g.collectorState filters ∅ with
  | .error err => (g, .ret none (some err))
  | .ok f =>
    match collectorLoop logger f g.collectorState.entries ∅ g with
    | (g1, .panicked) => (g1, .panic)
    | (g1, .failed err) => (g1, .ret none (some err))
    | (g1, .done collectors) =>
      match serverLoop makeServer dsns ∅ g1.calls with
      | (calls, .error err) => ({ g1 with calls := calls }, .ret none (some err))
      | (calls, .ok servers) =>
        ({ g1 with calls := calls },
          .ret (some { Collectors := collectors, logger := logger, servers := servers }) none)

/-- The external calls made between two states of the package variables,
oldest first. -/
def newCalls (before after : Globals) : List Event :=
  (after.calls.take (after.calls.length - before.calls.length)).reverse

/-- The key of a factory call that returned an instance. -/
def Event.factoryOk : Event → Option String
  | .factory key _ (.ok _) => some key
  | _ => none

/-- The key of a factory call, whatever it returned. -/
def Event.factoryKey : Event → Option String
  | .factory key _ _ => some key
  | _ => none

/-- The descriptor of a `makeServer` call. -/
def Event.serverDsn : Event → Option String
  | .makeServer dsn _ => some dsn
  | _ => none

/-! ## Notions used in the statements -/

/-- A name the registry holds with its flag on. -/
def Enabled (collectorState : GoMap Flag) (k : String) : Prop :=
  ∃ fl : Flag, collectorState.lookup k = some fl ∧ fl.value = true

/-- The test of the second loop: whether the entry is passed over. -/
def skipped (f : GoMap Bool) (key : String) (enabled : Flag) : Bool :=
  !enabled.value || (decide (f.len > 0) && !f.index key)

/-- The factory event of the second loop for `key`. -/
def factoryEvent (logger : Logger) (key : String) (create : Factory) (g : Globals) : Event :=
  Event.factory key (logger.With "collector" key)
    (create (logger.With "collector" key) g.calls.length)

/-- How many of the recorded calls are calls of the factory of `k` that
returned an instance. -/
def okCount (k : String) (calls : List Event) : Nat :=
  calls.countP (fun e => decide (e.factoryOk = some k))

/-- What a run of the second loop does to the package variables. `tr` is the
list of the calls it made, newest first. -/
structure LoopTrace (g : Globals) (r : Globals × LoopEnd) (tr : List Event) : Prop where
  calls_eq : r.1.calls = tr ++ g.calls
  factories_eq : r.1.factories = g.factories
  state_eq : r.1.collectorState = g.collectorState
  fresh : ∀ ev ∈ tr, ∃ key lg res, ev = Event.factory key lg res ∧
    g.initiatedCollectors.lookup key = none
  mono : ∀ k c, g.initiatedCollectors.lookup k = some c →
    r.1.initiatedCollectors.lookup k = some c
  stored : ∀ k lg c, Event.factory k lg (.ok c) ∈ tr →
    r.1.initiatedCollectors.lookup k = some c
  failed : ∀ k lg e, Event.factory k lg (.error e) ∈ tr →
    r.2 = LoopEnd.failed e ∧ r.1.initiatedCollectors.lookup k = none
  once : ∀ k, okCount k tr ≤ 1

/-- What a run of the third loop does. `tr` is the list of the calls it made,
newest first. -/
structure ServerTrace (makeServer : MakeServer) (dsns : List String) (servers : GoMap server)
    (calls : List Event) (r : List Event × Except error (GoMap server)) (tr : List Event) :
    Prop where
  calls_eq : r.1 = tr ++ calls
  only_servers : ∀ ev ∈ tr, ev.factoryKey = none
  on_ok : ∀ servers', r.2 = .ok servers' →
    tr.reverse.filterMap Event.serverDsn = dsns ∧
    (∀ d, d ∈ servers' ↔ d ∈ dsns ∨ d ∈ servers) ∧
    (∀ d s, servers'.lookup d = some s →
      servers.lookup d = some s ∨ Event.makeServer d (.ok s) ∈ tr)

/-- What a call of `NewPostgresCollector` does to the package variables,
however it ends. `tr` is the list of the calls it made, newest first. -/
structure CallTrace (g g' : Globals) (out : Outcome) (tr : List Event) : Prop where
  calls_eq : g'.calls = tr ++ g.calls
  factories_eq : g'.factories = g.factories
  state_eq : g'.collectorState = g.collectorState
  mono : ∀ k c, g.initiatedCollectors.lookup k = some c →
    g'.initiatedCollectors.lookup k = some c
  fresh : ∀ ev ∈ tr, ∀ k, ev.factoryKey = some k → g.initiatedCollectors.lookup k = none
  stored : ∀ k lg c, Event.factory k lg (.ok c) ∈ tr →
    g'.initiatedCollectors.lookup k = some c
  failed : ∀ k lg e, Event.factory k lg (.error e) ∈ tr →
    out = Outcome.ret none (some e) ∧ g'.initiatedCollectors.lookup k = none
  once : ∀ k, okCount k tr ≤ 1

/-- The states of the package variables that calls of `NewPostgresCollector`
lead to: any number of calls, with any arguments, the order in which `range`
visits `collectorState` being free at each call. -/
inductive Constructions (makeServer : MakeServer) : Globals → Globals → Prop where
  | refl (g : Globals) : Constructions makeServer g g
  | step {g g1 : Globals} (logger : Logger) (dsns filters : List String) (cs : GoMap Flag) :
      Constructions makeServer g g1 → cs.entries.Perm g1.collectorState.entries →
      Constructions makeServer g
        (NewPostgresCollector makeServer { g1 with collectorState := cs } logger dsns filters).1

/-- What a sequence of constructions does to the instance cache. `tr` is the
list of the calls made, newest first. -/
structure SeqTrace (g g' : Globals) (tr : List Event) : Prop where
  calls_eq : g'.calls = tr ++ g.calls
  mono : ∀ k c, g.initiatedCollectors.lookup k = some c →
    g'.initiatedCollectors.lookup k = some c
  fresh : ∀ ev ∈ tr, ∀ k, ev.factoryKey = some k → g.initiatedCollectors.lookup k = none
  stored : ∀ k lg c, Event.factory k lg (.ok c) ∈ tr →
    g'.initiatedCollectors.lookup k = some c
  once : ∀ k, okCount k tr ≤ 1

/-! ## Sample values -/

/-- A logger with no context. -/
def nopLogger : Logger := { ctx := [] }

/-- A domain sample, as a collector would send. -/
def uptimeSample : Metric :=
  { desc := { fqName := "pg_uptime_seconds", help := "Uptime.", variableLabels := [] }
    value := float64.lit 42
    labelValues := [] }

/-- A collector whose `Update` sends one domain sample and returns nil. -/
def uptimeCollector : Collector :=
  { addr := 1, Update := fun _ => { samples := [uptimeSample], err := none, elapsed := 5 } }

/-- A collector whose `Update` returns `ErrNoData`. -/
def replicationCollector : Collector :=
  { addr := 2, Update := fun _ => { samples := [], err := some ErrNoData, elapsed := 7 } }

/-- A collector whose `Update` returns an error of its own. -/
def brokenCollector : Collector :=
  { addr := 3
    Update := fun _ =>
      { samples := [], err := some (error.other 1 "connection refused"), elapsed := 9 } }

/-- An orchestrator over two servers and three collectors. -/
def sampleOrchestrator : PostgresCollector :=
  { Collectors :=
      ((∅ : GoMap Collector).insert "broken" brokenCollector
        |>.insert "replication" replicationCollector).insert "uptime" uptimeCollector
    logger := nopLogger
    servers := ((∅ : GoMap server).insert "dsn2" ⟨2⟩).insert "dsn1" ⟨1⟩ }

/-- A `makeServer` that never fails and hands out a new handle at each call. -/
def freshServer : MakeServer := fun _ t => .ok ⟨t⟩

/-- The error a failing factory reports. -/
def prepareError : error := error.other 2 "cannot prepare statements"

/-- A flag of the registry with the given value. -/
def sampleFlag (name : String) (value : Bool) : Flag :=
  { name := "collector." ++ name, help := "", dflt := "true", value := value }

/-- A registry with "uptime" and "replication" enabled, "wal" disabled and
"broken" enabled with a factory that fails; nothing instantiated yet. -/
def sampleGlobals : Globals :=
  { factories :=
      ((((∅ : GoMap Factory).insert "broken" (fun _ _ => .error prepareError)
        ).insert "wal" (fun _ _ => .ok brokenCollector)
        ).insert "replication" (fun _ _ => .ok replicationCollector)
        ).insert "uptime" (fun _ t => .ok { uptimeCollector with addr := 100 + t })
    initiatedCollectors := ∅
    collectorState :=
      ((((∅ : GoMap Flag).insert "broken" (sampleFlag "broken" true)
        ).insert "wal" (sampleFlag "wal" false)
        ).insert "replication" (sampleFlag "replication" true)
        ).insert "uptime" (sampleFlag "uptime" true)
    forcedCollectors := ∅
    calls := [] }

/-- The sample registry after one construction that asked for "uptime". -/
def sampleGlobalsAfter : Globals :=
  (NewPostgresCollector freshServer sampleGlobals nopLogger ["dsn1"] ["uptime"]).1

/-- The orchestrator that construction returns. -/
def uptimeOrchestrator : PostgresCollector :=
  { Collectors := (∅ : GoMap Collector).insert "uptime" { uptimeCollector with addr := 100 }
    logger := nopLogger
    servers := (∅ : GoMap server).insert "dsn1" ⟨1⟩ }

/-- The orchestrator a second construction that asks for "uptime" returns. -/
def reusedOrchestrator : PostgresCollector :=
  { Collectors := (∅ : GoMap Collector).insert "uptime" { uptimeCollector with addr := 100 }
    logger := nopLogger
    servers := (∅ : GoMap server).insert "dsn2" ⟨2⟩ }

/-- The orchestrator a construction over the descriptors "a", "a" returns in an
empty registry. -/
def twiceOrchestrator : PostgresCollector :=
  { Collectors := ∅
    logger := nopLogger
    servers := ((∅ : GoMap server).insert "a" ⟨0⟩).insert "a" ⟨1⟩ }

/-! ## Further notions -/

/-- The registration contract in the words of the spec: it "fails with
`DuplicateNameError` if `name` already registered", and registers otherwise. -/
def specRegister (g : Globals) (name : String) (isDefaultEnabled : Bool)
    (createFunc : Factory) : Except String Globals :=
  if name ∈ g.collectorState.keys then .error "DuplicateNameError"
  else .ok (registerCollector g name isDefaultEnabled createFunc)

/-- An empty registry. -/
def emptyGlobals : Globals :=
  { factories := ∅, initiatedCollectors := ∅, collectorState := ∅, forcedCollectors := ∅,
    calls := [] }

/-- How many of the recorded calls are calls of `makeServer` for `dsn`. -/
def serverCallCount (dsn : String) (calls : List Event) : Nat :=
  (calls.filterMap Event.serverDsn).count dsn

/-- The collectors send domain samples only: no `Update` of the orchestrator's
units sends a sample of one of the two meta-metrics. -/
def DomainOnly (n : PostgresCollector) : Prop :=
  ∀ e ∈ n.servers.entries, ∀ c ∈ n.Collectors.entries, ∀ m ∈ (c.2.Update e.2).samples,
    m.isDuration = false ∧ m.isSuccess = false

/-- How many samples satisfying `p` the `Update` calls for server `s` send
themselves, over the collectors of the orchestrator. -/
def updateSentOn (n : PostgresCollector) (p : Metric → Bool) (s : server) : Nat :=
  (n.Collectors.entries.map (fun c => (c.2.Update s).samples.countP p)).sum

/-- How many samples satisfying `p` the `Update` calls of one `Collect` send
themselves, over all units. -/
def updateSent (n : PostgresCollector) (p : Metric → Bool) : Nat :=
  (n.servers.entries.map (fun e => updateSentOn n p e.2)).sum

/-! ## Lemmas on interleavings -/

theorem shuffle_countP {α : Type} (p : α → Bool) {l r o : List α} (h : Shuffle l r o) :
    o.countP p = l.countP p + r.countP p := by
  induction h with
  | nil => rfl
  | left _ ih => simp only [List.countP_cons, ih]; omega
  | right _ ih => simp only [List.countP_cons, ih]; omega

theorem shuffle_nil_left {α : Type} (r : List α) : Shuffle [] r r := by
  induction r with
  | nil => exact Shuffle.nil
  | cons x r ih => exact Shuffle.right ih

theorem shuffle_append {α : Type} (l r : List α) : Shuffle l r (l ++ r) := by
  induction l with
  | nil => exact shuffle_nil_left r
  | cons x l ih => exact Shuffle.left ih

theorem interleaving_countP {α : Type} (p : α → Bool) {ls : List (List α)} {o : List α}
    (h : Interleaving ls o) : o.countP p = (ls.map (List.countP p)).sum := by
  induction h with
  | nil => rfl
  | cons hs _ ih => simp only [List.map_cons, List.sum_cons, shuffle_countP p hs, ih]

theorem interleaving_flatten {α : Type} (ls : List (List α)) : Interleaving ls ls.flatten := by
  induction ls with
  | nil => exact Interleaving.nil
  | cons l ls ih => exact Interleaving.cons (shuffle_append l ls.flatten) ih

theorem sent_foldr_append (l : List Effects) :
    (l.foldr Effects.append ⟨[], []⟩).sent = (l.map Effects.sent).flatten := by
  induction l with
  | nil => rfl
  | cons a l ih => simp only [List.foldr_cons, Effects.append, ih, List.map_cons, List.flatten_cons]

theorem logged_foldr_append (l : List Effects) :
    (l.foldr Effects.append ⟨[], []⟩).logged = (l.map Effects.logged).flatten := by
  induction l with
  | nil => rfl
  | cons a l ih => simp only [List.foldr_cons, Effects.append, ih, List.map_cons, List.flatten_cons]

theorem sum_map_const {α : Type} (l : List α) (f : α → Nat) (k : Nat)
    (h : ∀ a ∈ l, f a = k) : (l.map f).sum = l.length * k := by
  induction l with
  | nil => simp
  | cons a l ih =>
    have h1 : f a = k := h a (List.mem_cons_self a l)
    have h2 := ih (fun b hb => h b (List.mem_cons_of_mem a hb))
    simp only [List.map_cons, List.sum_cons, List.length_cons, h1, h2]
    rw [Nat.succ_mul]; omega

/-! ## Facts about the loops of `NewPostgresCollector` -/

theorem collectorLoop_skip (logger : Logger) (f : GoMap Bool) (key : String) (enabled : Flag)
    (rest : List (Sigma fun _ : String => Flag)) (cs : GoMap Collector) (g : Globals)
    (h : skipped f key enabled = true) :
    collectorLoop logger f (⟨key, enabled⟩ :: rest) cs g = collectorLoop logger f rest cs g := by
  unfold skipped at h
  rw [collectorLoop, if_pos h]

theorem collectorLoop_cached (logger : Logger) (f : GoMap Bool) (key : String) (enabled : Flag)
    (rest : List (Sigma fun _ : String => Flag)) (cs : GoMap Collector) (g : Globals)
    (h : skipped f key enabled = false) (c : Collector)
    (hc : g.initiatedCollectors.lookup key = some c) :
    collectorLoop logger f (⟨key, enabled⟩ :: rest) cs g
      = collectorLoop logger f rest (cs.insert key c) g := by
  unfold skipped at h
  rw [collectorLoop, if_neg (by simp [h]), hc]

theorem collectorLoop_nil_factory (logger : Logger) (f : GoMap Bool) (key : String)
    (enabled : Flag) (rest : List (Sigma fun _ : String => Flag)) (cs : GoMap Collector)
    (g : Globals) (h : skipped f key enabled = false)
    (hc : g.initiatedCollectors.lookup key = none) (hf : g.factories.lookup key = none) :
    collectorLoop logger f (⟨key, enabled⟩ :: rest) cs g = (g, LoopEnd.panicked) := by
  unfold skipped at h
  rw [collectorLoop, if_neg (by simp [h]), hc, hf]

theorem collectorLoop_error (logger : Logger) (f : GoMap Bool) (key : String) (enabled : Flag)
    (rest : List (Sigma fun _ : String => Flag)) (cs : GoMap Collector) (g : Globals)
    (h : skipped f key enabled = false) (hc : g.initiatedCollectors.lookup key = none)
    (create : Factory) (hf : g.factories.lookup key = some create) (err : error)
    (hr : create (logger.With "collector" key) g.calls.length = .error err) :
    collectorLoop logger f (⟨key, enabled⟩ :: rest) cs g
      = ({ g with calls := factoryEvent logger key create g :: g.calls }, LoopEnd.failed err) := by
  unfold skipped at h
  rw [collectorLoop, if_neg (by simp [h]), hc, hf]
  simp only [hr, factoryEvent]

theorem collectorLoop_ok (logger : Logger) (f : GoMap Bool) (key : String) (enabled : Flag)
    (rest : List (Sigma fun _ : String => Flag)) (cs : GoMap Collector) (g : Globals)
    (h : skipped f key enabled = false) (hc : g.initiatedCollectors.lookup key = none)
    (create : Factory) (hf : g.factories.lookup key = some create) (c : Collector)
    (hr : create (logger.With "collector" key) g.calls.length = .ok c) :
    collectorLoop logger f (⟨key, enabled⟩ :: rest) cs g
      = collectorLoop logger f rest (cs.insert key c)
          { g with
            calls := factoryEvent logger key create g :: g.calls
            initiatedCollectors := g.initiatedCollectors.insert key c } := by
  unfold skipped at h
  rw [collectorLoop, if_neg (by simp [h]), hc, hf]
  simp only [hr, factoryEvent]

/-- Induction along a run of the second loop: a property of the loop's
arguments and result holds if it holds in each of the six ways the loop can
take its next step. -/
theorem collectorLoop_cases (logger : Logger) (f : GoMap Bool)
    (P : List (Sigma fun _ : String => Flag) → GoMap Collector → Globals →
      Globals × LoopEnd → Prop)
    (hnil : ∀ cs g, P [] cs g (g, .done cs))
    (hskip : ∀ key enabled rest cs g, skipped f key enabled = true →
      P rest cs g (collectorLoop logger f rest cs g) →
      P (⟨key, enabled⟩ :: rest) cs g (collectorLoop logger f rest cs g))
    (hcached : ∀ key enabled rest cs g c, skipped f key enabled = false →
      g.initiatedCollectors.lookup key = some c →
      P rest (cs.insert key c) g (collectorLoop logger f rest (cs.insert key c) g) →
      P (⟨key, enabled⟩ :: rest) cs g (collectorLoop logger f rest (cs.insert key c) g))
    (hpanic : ∀ key enabled rest cs g, skipped f key enabled = false →
      g.initiatedCollectors.lookup key = none → g.factories.lookup key = none →
      P (⟨key, enabled⟩ :: rest) cs g (g, .panicked))
    (herror : ∀ key enabled rest cs g create err, skipped f key enabled = false →
      g.initiatedCollectors.lookup key = none → g.factories.lookup key = some create →
      create (logger.With "collector" key) g.calls.length = .error err →
      P (⟨key, enabled⟩ :: rest) cs g
        ({ g with calls := factoryEvent logger key create g :: g.calls }, .failed err))
    (hok : ∀ key enabled rest cs g create c, skipped f key enabled = false →
      g.initiatedCollectors.lookup key = none → g.factories.lookup key = some create →
      create (logger.With "collector" key) g.calls.length = .ok c →
      P rest (cs.insert key c)
        { g with
          calls := factoryEvent logger key create g :: g.calls
          initiatedCollectors := g.initiatedCollectors.insert key c }
        (collectorLoop logger f rest (cs.insert key c)
          { g with
            calls := factoryEvent logger key create g :: g.calls
            initiatedCollectors := g.initiatedCollectors.insert key c }) →
      P (⟨key, enabled⟩ :: rest) cs g
        (collectorLoop logger f rest (cs.insert key c)
          { g with
            calls := factoryEvent logger key create g :: g.calls
            initiatedCollectors := g.initiatedCollectors.insert key c })) :
    ∀ entries cs g, P entries cs g (collectorLoop logger f entries cs g) := by
  intro entries
  induction entries with
  | nil => intro cs g; rw [collectorLoop]; exact hnil cs g
  | cons e rest ih =>
    intro cs g
    obtain ⟨key, enabled⟩ := e
    cases hs : skipped f key enabled with
    | true =>
      rw [collectorLoop_skip logger f key enabled rest cs g hs]
      exact hskip key enabled rest cs g hs (ih cs g)
    | false =>
      cases hc : g.initiatedCollectors.lookup key with
      | some c =>
        rw [collectorLoop_cached logger f key enabled rest cs g hs c hc]
        exact hcached key enabled rest cs g c hs hc (ih _ _)
      | none =>
        cases hf : g.factories.lookup key with
        | none =>
          rw [collectorLoop_nil_factory logger f key enabled rest cs g hs hc hf]
          exact hpanic key enabled rest cs g hs hc hf
        | some create =>
          cases hr : create (logger.With "collector" key) g.calls.length with
          | error err =>
            rw [collectorLoop_error logger f key enabled rest cs g hs hc create hf err hr]
            exact herror key enabled rest cs g create err hs hc hf hr
          | ok c =>
            rw [collectorLoop_ok logger f key enabled rest cs g hs hc create hf c hr]
            exact hok key enabled rest cs g create c hs hc hf hr (ih _ _)

theorem okCount_eq_zero_of_fresh (k : String) (tr : List Event)
    (h : ∀ ev ∈ tr, ev.factoryKey ≠ some k) : okCount k tr = 0 := by
  unfold okCount
  rw [List.countP_eq_zero]
  intro ev hev
  have := h ev hev
  cases ev with
  | factory key lg res =>
    cases res with
    | error e => simp [Event.factoryOk]
    | ok c => simpa [Event.factoryOk, Event.factoryKey] using this
  | makeServer dsn res => simp [Event.factoryOk]

theorem collectorLoop_trace (logger : Logger) (f : GoMap Bool) :
    ∀ entries cs g, ∃ tr, LoopTrace g (collectorLoop logger f entries cs g) tr := by
  refine collectorLoop_cases logger f (fun _ _ g r => ∃ tr, LoopTrace g r tr)
    ?_ ?_ ?_ ?_ ?_ ?_
  · intro cs g
    exact ⟨[], rfl, rfl, rfl, by simp, fun _ _ h => h, by simp, by simp, by simp [okCount]⟩
  · intro key enabled rest cs g _ ih
    exact ih
  · intro key enabled rest cs g c _ _ ih
    exact ih
  · intro key enabled rest cs g _ _ _
    exact ⟨[], rfl, rfl, rfl, by simp, fun _ _ h => h, by simp, by simp, by simp [okCount]⟩
  · intro key enabled rest cs g create err _ hc _ hr
    refine ⟨[factoryEvent logger key create g], rfl, rfl, rfl, ?_, fun _ _ h => h, ?_, ?_, ?_⟩
    · intro ev hev
      rw [List.mem_singleton] at hev
      exact ⟨key, _, _, hev, hc⟩
    · intro k lg c hev
      rw [List.mem_singleton] at hev
      simp [factoryEvent, hr] at hev
    · intro k lg e hev
      rw [List.mem_singleton] at hev
      simp only [factoryEvent, hr, Event.factory.injEq, Except.error.injEq] at hev
      obtain ⟨hk, _, he⟩ := hev
      subst hk he
      exact ⟨rfl, hc⟩
    · intro k
      simp [okCount, factoryEvent, hr, Event.factoryOk]
  · intro key enabled rest cs g create c _ hc _ hr ih
    obtain ⟨tr, h⟩ := ih
    have hkey : ∀ ev ∈ tr, ev.factoryKey ≠ some key := by
      intro ev hev
      obtain ⟨key1, lg, res, rfl, hnone⟩ := h.fresh ev hev
      intro heq
      simp only [Event.factoryKey, Option.some.injEq] at heq
      subst heq
      simp at hnone
    refine ⟨tr ++ [factoryEvent logger key create g], ?_, h.factories_eq, h.state_eq,
      ?_, ?_, ?_, ?_, ?_⟩
    · rw [h.calls_eq]; simp
    · intro ev hev
      rcases List.mem_append.mp hev with hev | hev
      · obtain ⟨key1, lg, res, rfl, hnone⟩ := h.fresh _ hev
        refine ⟨key1, lg, res, rfl, ?_⟩
        simp only [AList.lookup_insert_eq_none] at hnone
        exact hnone.2
      · rw [List.mem_singleton] at hev
        exact ⟨key, _, _, hev, hc⟩
    · intro k c1 hk
      have hne : k ≠ key := by
        rintro rfl
        rw [hc] at hk
        exact Option.noConfusion hk
      exact h.mono k c1 (by simpa [AList.lookup_insert_ne hne] using hk)
    · intro k lg c1 hev
      rcases List.mem_append.mp hev with hev | hev
      · exact h.stored k lg c1 hev
      · rw [List.mem_singleton] at hev
        simp only [factoryEvent, hr, Event.factory.injEq, Except.ok.injEq] at hev
        obtain ⟨hk, _, hc1⟩ := hev
        subst hk hc1
        exact h.mono k c1 (by simp)
    · intro k lg e hev
      rcases List.mem_append.mp hev with hev | hev
      · exact h.failed k lg e hev
      · rw [List.mem_singleton] at hev
        simp [factoryEvent, hr] at hev
    · intro k
      by_cases hk : k = key
      · subst hk
        have h0 := okCount_eq_zero_of_fresh k tr hkey
        unfold okCount at h0 ⊢
        rw [List.countP_append, h0]
        simp [factoryEvent, hr, Event.factoryOk]
      · have h1 := h.once k
        unfold okCount at h1 ⊢
        rw [List.countP_append]
        have : List.countP (fun e => decide (e.factoryOk = some k))
            [factoryEvent logger key create g] = 0 := by
          simp [factoryEvent, hr, Event.factoryOk, Ne.symm hk]
        omega

theorem skipped_eq_false (f : GoMap Bool) (key : String) (enabled : Flag) :
    skipped f key enabled = false ↔
      enabled.value = true ∧ (f.len = 0 ∨ f.index key = true) := by
  unfold skipped
  cases enabled.value <;> cases f.index key <;> simp

/-- The map `collectors` at the end of a run of the second loop that completes:
its keys are those it had plus the entries not passed over, and each key holds
what it held or what `initiatedCollectors` holds for it at the end. -/
theorem collectorLoop_done (logger : Logger) (f : GoMap Bool) :
    ∀ entries cs g, ∀ cs', (collectorLoop logger f entries cs g).2 = LoopEnd.done cs' →
      (∀ k, k ∈ cs' ↔ k ∈ cs ∨ ∃ fl, (⟨k, fl⟩ : Sigma fun _ : String => Flag) ∈ entries ∧
        skipped f k fl = false) ∧
      (∀ k, cs'.lookup k = cs.lookup k ∨ cs'.lookup k =
        (collectorLoop logger f entries cs g).1.initiatedCollectors.lookup k) := by
  refine collectorLoop_cases logger f (fun entries cs _ r => ∀ cs', r.2 = LoopEnd.done cs' →
      (∀ k, k ∈ cs' ↔ k ∈ cs ∨ ∃ fl, (⟨k, fl⟩ : Sigma fun _ : String => Flag) ∈ entries ∧
        skipped f k fl = false) ∧
      (∀ k, cs'.lookup k = cs.lookup k ∨ cs'.lookup k = r.1.initiatedCollectors.lookup k))
    ?_ ?_ ?_ ?_ ?_ ?_
  · intro cs g cs' h
    simp only [LoopEnd.done.injEq] at h
    subst h
    exact ⟨by simp, fun k => Or.inl rfl⟩
  · intro key enabled rest cs g hs ih cs' h
    obtain ⟨h1, h2⟩ := ih cs' h
    refine ⟨fun k => ?_, h2⟩
    rw [h1 k]
    constructor
    · rintro (hk | ⟨fl, hfl, hsk⟩)
      · exact Or.inl hk
      · exact Or.inr ⟨fl, List.mem_cons_of_mem _ hfl, hsk⟩
    · rintro (hk | ⟨fl, hfl, hsk⟩)
      · exact Or.inl hk
      · rcases List.mem_cons.mp hfl with heq | hmem
        · cases heq
          rw [hs] at hsk
          exact Bool.noConfusion hsk
        · exact Or.inr ⟨fl, hmem, hsk⟩
  · intro key enabled rest cs g c hs hc ih cs' h
    obtain ⟨h1, h2⟩ := ih cs' h
    obtain ⟨tr, ht⟩ := collectorLoop_trace logger f rest (cs.insert key c) g
    refine ⟨fun k => ?_, fun k => ?_⟩
    · rw [h1 k, AList.mem_insert]
      constructor
      · rintro ((rfl | hk) | ⟨fl, hfl, hsk⟩)
        · exact Or.inr ⟨enabled, List.mem_cons_self _ _, hs⟩
        · exact Or.inl hk
        · exact Or.inr ⟨fl, List.mem_cons_of_mem _ hfl, hsk⟩
      · rintro (hk | ⟨fl, hfl, hsk⟩)
        · exact Or.inl (Or.inr hk)
        · rcases List.mem_cons.mp hfl with heq | hmem
          · cases heq
            exact Or.inl (Or.inl rfl)
          · exact Or.inr ⟨fl, hmem, hsk⟩
    · rcases h2 k with h3 | h3
      · by_cases hk : k = key
        · subst hk
          right
          rw [h3, AList.lookup_insert, ht.mono k c hc]
        · left
          rw [h3, AList.lookup_insert_ne hk]
      · exact Or.inr h3
  · intro key enabled rest cs g _ _ _ cs' h
    exact LoopEnd.noConfusion h
  · intro key enabled rest cs g create err _ _ _ _ cs' h
    exact LoopEnd.noConfusion h
  · intro key enabled rest cs g create c hs hc _ hr ih cs' h
    obtain ⟨h1, h2⟩ := ih cs' h
    obtain ⟨tr, ht⟩ := collectorLoop_trace logger f rest (cs.insert key c)
      { g with
        calls := factoryEvent logger key create g :: g.calls
        initiatedCollectors := g.initiatedCollectors.insert key c }
    refine ⟨fun k => ?_, fun k => ?_⟩
    · rw [h1 k, AList.mem_insert]
      constructor
      · rintro ((rfl | hk) | ⟨fl, hfl, hsk⟩)
        · exact Or.inr ⟨enabled, List.mem_cons_self _ _, hs⟩
        · exact Or.inl hk
        · exact Or.inr ⟨fl, List.mem_cons_of_mem _ hfl, hsk⟩
      · rintro (hk | ⟨fl, hfl, hsk⟩)
        · exact Or.inl (Or.inr hk)
        · rcases List.mem_cons.mp hfl with heq | hmem
          · cases heq
            exact Or.inl (Or.inl rfl)
          · exact Or.inr ⟨fl, hmem, hsk⟩
    · rcases h2 k with h3 | h3
      · by_cases hk : k = key
        · subst hk
          right
          rw [h3, AList.lookup_insert, ht.mono k c (AList.lookup_insert _)]
        · left
          rw [h3, AList.lookup_insert_ne hk]
      · exact Or.inr h3

/-! ### The first loop -/

theorem filterLoop_append (collectorState : GoMap Flag) (rest : List String) :
    ∀ (pre : List String) (f : GoMap Bool), (∀ x ∈ pre, Enabled collectorState x) →
      ∃ f', filterLoop collectorState (pre ++ rest) f = filterLoop collectorState rest f' := by
  intro pre
  induction pre with
  | nil => intro f _; exact ⟨f, rfl⟩
  | cons x pre ih =>
    intro f h
    obtain ⟨fl, hfl, hv⟩ := h x (List.mem_cons_self x pre)
    obtain ⟨f', hf'⟩ := ih (f.insert x true) (fun y hy => h y (List.mem_cons_of_mem x hy))
    refine ⟨f', ?_⟩
    rw [List.cons_append, filterLoop, hfl]
    simp only [hv, Bool.not_true, Bool.false_eq_true, if_false]
    exact hf'

theorem filterLoop_ok (collectorState : GoMap Flag) :
    ∀ (filters : List String) (f0 f : GoMap Bool),
      filterLoop collectorState filters f0 = .ok f →
      (∀ x ∈ filters, Enabled collectorState x) ∧
      (∀ k, k ∈ f ↔ k ∈ filters ∨ k ∈ f0) ∧
      (∀ k, f.index k = true ↔ k ∈ filters ∨ f0.index k = true) := by
  intro filters
  induction filters with
  | nil =>
    intro f0 f h
    simp only [filterLoop, Except.ok.injEq] at h
    subst h
    simp
  | cons x rest ih =>
    intro f0 f h
    rw [filterLoop] at h
    cases hl : collectorState.lookup x with
    | none => rw [hl] at h; exact Except.noConfusion h
    | some fl =>
      rw [hl] at h
      cases hv : fl.value with
      | false => simp [hv] at h
      | true =>
        simp only [hv, Bool.not_true, Bool.false_eq_true, if_false] at h
        obtain ⟨h1, h2, h3⟩ := ih _ f h
        refine ⟨?_, ?_, ?_⟩
        · intro y hy
          rcases List.mem_cons.mp hy with rfl | hy
          · exact ⟨fl, hl, hv⟩
          · exact h1 y hy
        · intro k
          rw [h2 k, AList.mem_insert, List.mem_cons]
          tauto
        · intro k
          rw [h3 k, List.mem_cons]
          by_cases hk : k = x
          · subst hk
            simp [GoMap.index, AList.lookup_insert]
          · simp [GoMap.index, AList.lookup_insert_ne hk, hk]

/-! ### The third loop -/

theorem serverLoop_trace (makeServer : MakeServer) :
    ∀ dsns servers calls,
      ∃ tr, ServerTrace makeServer dsns servers calls (serverLoop makeServer dsns servers calls) tr := by
  intro dsns
  induction dsns with
  | nil =>
    intro servers calls
    refine ⟨[], rfl, by simp, ?_⟩
    intro servers' h
    simp only [serverLoop, Except.ok.injEq] at h
    subst h
    simp
  | cons dsn rest ih =>
    intro servers calls
    rw [serverLoop]
    cases hr : makeServer dsn calls.length with
    | error err =>
      refine ⟨[Event.makeServer dsn (.error err)], rfl, by simp [Event.factoryKey], ?_⟩
      intro servers' h
      exact Except.noConfusion h
    | ok s =>
      obtain ⟨tr, ht⟩ := ih (servers.insert dsn s) (Event.makeServer dsn (.ok s) :: calls)
      refine ⟨tr ++ [Event.makeServer dsn (.ok s)], ?_, ?_, ?_⟩
      · simp only [ht.calls_eq]; simp
      · intro ev hev
        rcases List.mem_append.mp hev with hev | hev
        · exact ht.only_servers ev hev
        · rw [List.mem_singleton] at hev
          subst hev
          rfl
      · intro servers' h
        obtain ⟨h1, h2, h3⟩ := ht.on_ok servers' h
        refine ⟨?_, ?_, ?_⟩
        · rw [List.reverse_append, List.filterMap_append, h1]
          rfl
        · intro d
          rw [h2 d, AList.mem_insert, List.mem_cons]
          tauto
        · intro d s1 hd
          rcases h3 d s1 hd with h4 | h4
          · by_cases hk : d = dsn
            · subst hk
              rw [AList.lookup_insert] at h4
              simp only [Option.some.injEq] at h4
              subst h4
              exact Or.inr (List.mem_append_right _ (List.mem_singleton_self _))
            · rw [AList.lookup_insert_ne hk] at h4
              exact Or.inl h4
          · exact Or.inr (List.mem_append_left _ h4)

/-! ### The whole of `NewPostgresCollector` -/

theorem newCalls_eq (g g' : Globals) (tr : List Event) (h : g'.calls = tr ++ g.calls) :
    newCalls g g' = tr.reverse := by
  unfold newCalls
  rw [h, List.length_append, Nat.add_sub_cancel, List.take_left]

/-- The five ways a call of `NewPostgresCollector` can go. -/
theorem NewPostgresCollector_cases (makeServer : MakeServer) (g : Globals) (logger : Logger)
    (dsns filters : List String) :
    (∃ err, filterLoop g.collectorState filters ∅ = .error err ∧
      NewPostgresCollector makeServer g logger dsns filters = (g, .ret none (some err))) ∨
    (∃ f, filterLoop g.collectorState filters ∅ = .ok f ∧
      (((collectorLoop logger f g.collectorState.entries ∅ g).2 = .panicked ∧
        NewPostgresCollector makeServer g logger dsns filters
          = ((collectorLoop logger f g.collectorState.entries ∅ g).1, .panic)) ∨
      (∃ err, (collectorLoop logger f g.collectorState.entries ∅ g).2 = .failed err ∧
        NewPostgresCollector makeServer g logger dsns filters
          = ((collectorLoop logger f g.collectorState.entries ∅ g).1, .ret none (some err))) ∨
      (∃ cs, (collectorLoop logger f g.collectorState.entries ∅ g).2 = .done cs ∧
        ((∃ err, (serverLoop makeServer dsns ∅
              (collectorLoop logger f g.collectorState.entries ∅ g).1.calls).2 = .error err ∧
          NewPostgresCollector makeServer g logger dsns filters
            = ({ (collectorLoop logger f g.collectorState.entries ∅ g).1 with
                  calls := (serverLoop makeServer dsns ∅
                    (collectorLoop logger f g.collectorState.entries ∅ g).1.calls).1 },
                .ret none (some err))) ∨
        (∃ servers, (serverLoop makeServer dsns ∅
              (collectorLoop logger f g.collectorState.entries ∅ g).1.calls).2 = .ok servers ∧
          NewPostgresCollector makeServer g logger dsns filters
            = ({ (collectorLoop logger f g.collectorState.entries ∅ g).1 with
                  calls := (serverLoop makeServer dsns ∅
                    (collectorLoop logger f g.collectorState.entries ∅ g).1.calls).1 },
                .ret (some { Collectors := cs, logger := logger, servers := servers })
                  none)))))) := by
  unfold NewPostgresCollector
  cases hf : filterLoop g.collectorState filters ∅ with
  | error err => exact Or.inl ⟨err, rfl, rfl⟩
  | ok f =>
    refine Or.inr ⟨f, rfl, ?_⟩
    dsimp only
    rcases hl : collectorLoop logger f g.collectorState.entries ∅ g with ⟨g1, e⟩
    cases e with
    | panicked => exact Or.inl ⟨rfl, rfl⟩
    | failed err => exact Or.inr (Or.inl ⟨err, rfl, rfl⟩)
    | done cs =>
      refine Or.inr (Or.inr ⟨cs, rfl, ?_⟩)
      dsimp only
      rcases hs : serverLoop makeServer dsns ∅ g1.calls with ⟨calls, res⟩
      cases res with
      | error err => exact Or.inl ⟨err, rfl, rfl⟩
      | ok servers => exact Or.inr ⟨servers, rfl, rfl⟩

theorem loopTrace_fresh_key {g : Globals} {r : Globals × LoopEnd} {tr : List Event}
    (h : LoopTrace g r tr) :
    ∀ ev ∈ tr, ∀ k, ev.factoryKey = some k → g.initiatedCollectors.lookup k = none := by
  intro ev hev k hk
  obtain ⟨key, lg, res, rfl, hnone⟩ := h.fresh ev hev
  simp only [Event.factoryKey, Option.some.injEq] at hk
  subst hk
  exact hnone

theorem okCount_append_servers (k : String) (tr2 tr : List Event)
    (h : ∀ ev ∈ tr2, ev.factoryKey = none) : okCount k (tr2 ++ tr) = okCount k tr := by
  have h0 : okCount k tr2 = 0 :=
    okCount_eq_zero_of_fresh k tr2 (fun ev hev => by rw [h ev hev]; exact Option.noConfusion)
  unfold okCount at h0 ⊢
  rw [List.countP_append, h0, Nat.zero_add]

theorem NewPostgresCollector_trace (makeServer : MakeServer) (g : Globals) (logger : Logger)
    (dsns filters : List String) :
    ∃ tr, CallTrace g (NewPostgresCollector makeServer g logger dsns filters).1
      (NewPostgresCollector makeServer g logger dsns filters).2 tr := by
  rcases NewPostgresCollector_cases makeServer g logger dsns filters with
    ⟨err, _, h⟩ | ⟨f, _, h⟩
  · rw [h]
    exact ⟨[], rfl, rfl, rfl, fun _ _ h => h, by simp, by simp, by simp, by simp [okCount]⟩
  · obtain ⟨tr, ht⟩ := collectorLoop_trace logger f g.collectorState.entries ∅ g
    rcases h with ⟨hp, h⟩ | ⟨err, he, h⟩ | ⟨cs, hd, h⟩
    · rw [h]
      refine ⟨tr, ht.calls_eq, ht.factories_eq, ht.state_eq, ht.mono, (loopTrace_fresh_key ht), ht.stored,
        ?_, ht.once⟩
      intro k lg e hev
      have := (ht.failed k lg e hev).1
      rw [hp] at this
      exact LoopEnd.noConfusion this
    · rw [h]
      refine ⟨tr, ht.calls_eq, ht.factories_eq, ht.state_eq, ht.mono, (loopTrace_fresh_key ht), ht.stored,
        ?_, ht.once⟩
      intro k lg e hev
      obtain ⟨h1, h2⟩ := ht.failed k lg e hev
      rw [he] at h1
      simp only [LoopEnd.failed.injEq] at h1
      subst h1
      exact ⟨rfl, h2⟩
    · obtain ⟨tr2, hs⟩ := serverLoop_trace makeServer dsns ∅
        (collectorLoop logger f g.collectorState.entries ∅ g).1.calls
      have hnot : ∀ k lg res, Event.factory k lg res ∈ tr2 ++ tr → Event.factory k lg res ∈ tr := by
        intro k lg res hev
        rcases List.mem_append.mp hev with hev | hev
        · have := hs.only_servers _ hev
          simp [Event.factoryKey] at this
        · exact hev
      have hmain : CallTrace g
          { (collectorLoop logger f g.collectorState.entries ∅ g).1 with
            calls := (serverLoop makeServer dsns ∅
              (collectorLoop logger f g.collectorState.entries ∅ g).1.calls).1 }
          (NewPostgresCollector makeServer g logger dsns filters).2 (tr2 ++ tr) := by
        refine ⟨?_, ht.factories_eq, ht.state_eq, ht.mono, ?_, ?_, ?_, ?_⟩
        · show (serverLoop makeServer dsns ∅ _).1 = _
          rw [hs.calls_eq, ht.calls_eq, List.append_assoc]
        · intro ev hev k hk
          rcases List.mem_append.mp hev with hev | hev
          · rw [hs.only_servers ev hev] at hk
            exact Option.noConfusion hk
          · exact (loopTrace_fresh_key ht) ev hev k hk
        · intro k lg c hev
          exact ht.stored k lg c (hnot _ _ _ hev)
        · intro k lg e hev
          have := (ht.failed k lg e (hnot _ _ _ hev)).1
          rw [hd] at this
          exact LoopEnd.noConfusion this
        · intro k
          rw [okCount_append_servers k tr2 tr hs.only_servers]
          exact ht.once k
      rcases h with ⟨err, _, h⟩ | ⟨servers, _, h⟩
      · refine ⟨tr2 ++ tr, ?_⟩
        have h1 : (NewPostgresCollector makeServer g logger dsns filters).1 = _ :=
          congrArg Prod.fst h
        rw [h1]
        exact hmain
      · refine ⟨tr2 ++ tr, ?_⟩
        have h1 : (NewPostgresCollector makeServer g logger dsns filters).1 = _ :=
          congrArg Prod.fst h
        rw [h1]
        exact hmain

/-! ### Sequences of constructions -/

theorem okCount_pos (k : String) (tr : List Event) (h : 0 < okCount k tr) :
    ∃ lg c, Event.factory k lg (.ok c) ∈ tr := by
  unfold okCount at h
  obtain ⟨ev, hev, hp⟩ := List.countP_pos_iff.mp h
  cases ev with
  | factory key lg res =>
    cases res with
    | error e => simp [Event.factoryOk] at hp
    | ok c =>
      simp only [Event.factoryOk, Option.some.injEq, decide_eq_true_eq] at hp
      subst hp
      exact ⟨lg, c, hev⟩
  | makeServer dsn res => simp [Event.factoryOk] at hp

theorem okCount_append (k : String) (a b : List Event) :
    okCount k (a ++ b) = okCount k a + okCount k b := by
  unfold okCount
  exact List.countP_append _ a b

theorem constructions_trace {makeServer : MakeServer} {g g' : Globals}
    (h : Constructions makeServer g g') : ∃ tr, SeqTrace g g' tr := by
  induction h with
  | refl => exact ⟨[], rfl, fun _ _ h => h, by simp, by simp, by simp [okCount]⟩
  | @step g1 logger dsns filters cs _ _ ih =>
    obtain ⟨tr1, h1⟩ := ih
    obtain ⟨tr2, h2⟩ := NewPostgresCollector_trace makeServer
      { g1 with collectorState := cs } logger dsns filters
    refine ⟨tr2 ++ tr1, ?_, ?_, ?_, ?_, ?_⟩
    · rw [h2.calls_eq, List.append_assoc]
      exact congrArg _ h1.calls_eq
    · intro k c hk
      exact h2.mono k c (h1.mono k c hk)
    · intro ev hev k hk
      rcases List.mem_append.mp hev with hev | hev
      · have h3 := h2.fresh ev hev k hk
        cases hg : g.initiatedCollectors.lookup k with
        | none => rfl
        | some c =>
          have h4 : g1.initiatedCollectors.lookup k = some c := h1.mono k c hg
          have h5 : g1.initiatedCollectors.lookup k = none := h3
          rw [h4] at h5
          exact Option.noConfusion h5
      · exact h1.fresh ev hev k hk
    · intro k lg c hev
      rcases List.mem_append.mp hev with hev | hev
      · exact h2.stored k lg c hev
      · exact h2.mono k c (h1.stored k lg c hev)
    · intro k
      rw [okCount_append]
      by_cases hpos : 0 < okCount k tr1
      · obtain ⟨lg, c, hev⟩ := okCount_pos k tr1 hpos
        have hc : g1.initiatedCollectors.lookup k = some c := h1.stored k lg c hev
        have h0 : okCount k tr2 = 0 := by
          refine okCount_eq_zero_of_fresh k tr2 (fun ev hev2 hkey => ?_)
          have h5 : g1.initiatedCollectors.lookup k = none := h2.fresh ev hev2 k hkey
          rw [hc] at h5
          exact Option.noConfusion h5
        have := h1.once k
        omega
      · have := h2.once k
        omega

/-- What is known when `NewPostgresCollector` returns an orchestrator. -/
theorem NewPostgresCollector_ok_inv (makeServer : MakeServer) (g : Globals) (logger : Logger)
    (dsns filters : List String) (g' : Globals) (pc : PostgresCollector)
    (h : NewPostgresCollector makeServer g logger dsns filters = (g', .ret (some pc) none)) :
    ∃ f tr tr2,
      filterLoop g.collectorState filters ∅ = .ok f ∧
      LoopTrace g (collectorLoop logger f g.collectorState.entries ∅ g) tr ∧
      (collectorLoop logger f g.collectorState.entries ∅ g).2 = .done pc.Collectors ∧
      ServerTrace makeServer dsns ∅ (collectorLoop logger f g.collectorState.entries ∅ g).1.calls
        (serverLoop makeServer dsns ∅
          (collectorLoop logger f g.collectorState.entries ∅ g).1.calls) tr2 ∧
      (serverLoop makeServer dsns ∅
          (collectorLoop logger f g.collectorState.entries ∅ g).1.calls).2 = .ok pc.servers ∧
      g'.calls = tr2 ++ tr ++ g.calls ∧
      g'.initiatedCollectors
        = (collectorLoop logger f g.collectorState.entries ∅ g).1.initiatedCollectors := by
  rcases NewPostgresCollector_cases makeServer g logger dsns filters with
    ⟨err, _, hc⟩ | ⟨f, hf, hc⟩
  · have := hc.symm.trans h
    simp at this
  · obtain ⟨tr, ht⟩ := collectorLoop_trace logger f g.collectorState.entries ∅ g
    rcases hc with ⟨_, hc⟩ | ⟨err, _, hc⟩ | ⟨cs, hd, hc⟩
    · have := hc.symm.trans h
      simp at this
    · have := hc.symm.trans h
      simp at this
    · obtain ⟨tr2, hs⟩ := serverLoop_trace makeServer dsns ∅
        (collectorLoop logger f g.collectorState.entries ∅ g).1.calls
      rcases hc with ⟨err, _, hc⟩ | ⟨servers, hsv, hc⟩
      · have := hc.symm.trans h
        simp at this
      · have heq := hc.symm.trans h
        simp only [Prod.mk.injEq, Outcome.ret.injEq, Option.some.injEq, and_true] at heq
        obtain ⟨hg, hpc⟩ := heq
        subst hg hpc
        refine ⟨f, tr, tr2, hf, ht, hd, hs, hsv, ?_, rfl⟩
        show (serverLoop makeServer dsns ∅ _).1 = _
        rw [hs.calls_eq, ht.calls_eq, List.append_assoc]

/-! ## Facts about `execute` -/

theorem execute_sent (name : String) (c : Collector) (s : server) :
    ∃ v : float64,
      (execute name c s).sent = (c.Update s).samples ++
        [⟨scrapeDurationDesc, .seconds (c.Update s).elapsed, [name]⟩,
          ⟨scrapeSuccessDesc, v, [name]⟩] :=
  ⟨_, rfl⟩

theorem execute_logged_length (name : String) (c : Collector) (s : server) :
    (execute name c s).logged.length = 1 := rfl

theorem execute_countP_duration (name : String) (c : Collector) (s : server) :
    (execute name c s).sent.countP Metric.isDuration
      = (c.Update s).samples.countP Metric.isDuration + 1 := by
  obtain ⟨v, hv⟩ := execute_sent name c s
  rw [hv, List.countP_append]
  simp [List.countP_cons, Metric.isDuration, scrapeDurationDesc, scrapeSuccessDesc]

theorem execute_countP_success (name : String) (c : Collector) (s : server) :
    (execute name c s).sent.countP Metric.isSuccess
      = (c.Update s).samples.countP Metric.isSuccess + 1 := by
  obtain ⟨v, hv⟩ := execute_sent name c s
  rw [hv, List.countP_append]
  simp [List.countP_cons, Metric.isSuccess, scrapeDurationDesc, scrapeSuccessDesc]

theorem sum_map_add_const {α : Type} (l : List α) (f g : α → Nat) (k : Nat)
    (h : ∀ a ∈ l, f a = k + g a) : (l.map f).sum = l.length * k + (l.map g).sum := by
  induction l with
  | nil => simp
  | cons a l ih =>
    have h1 : f a = k + g a := h a (List.mem_cons_self a l)
    have h2 := ih (fun b hb => h b (List.mem_cons_of_mem a hb))
    simp only [List.map_cons, List.sum_cons, List.length_cons, h1, h2]
    rw [Nat.succ_mul]; omega

theorem subCollectRun_count (n : PostgresCollector) (s : server) (p : Metric → Bool)
    (hp : ∀ (name : String) (c : Collector),
      (execute name c s).sent.countP p = (c.Update s).samples.countP p + 1)
    {out : List Metric} (h : subCollectRun n s out) :
    out.countP p = n.Collectors.len + updateSentOn n p s := by
  unfold subCollectRun subCollectUnits at h
  rw [interleaving_countP p h, List.map_map, List.map_map]
  refine (sum_map_add_const n.Collectors.entries _
    (fun c => (c.2.Update s).samples.countP p) 1 (fun c _ => ?_)).trans ?_
  · show (execute c.1 c.2 s).sent.countP p = 1 + (c.2.Update s).samples.countP p
    rw [hp, Nat.add_comm]
  · rw [Nat.mul_one]; rfl

theorem forall₂_sum_count {α : Type} (R : α → List Metric → Prop) (p : Metric → Bool) (k : Nat)
    (F : α → Nat) :
    ∀ (xs : List α) (outs : List (List Metric)), List.Forall₂ R xs outs →
      (∀ x ∈ xs, ∀ o, R x o → o.countP p = k + F x) →
      (outs.map (List.countP p)).sum = xs.length * k + (xs.map F).sum := by
  intro xs outs h
  induction h with
  | nil => intro _; simp
  | @cons x o xs' outs' hxo _ ih =>
    intro hk
    have h1 := hk x (List.mem_cons_self x xs') o hxo
    have h2 := ih (fun y hy o' ho' => hk y (List.mem_cons_of_mem x hy) o' ho')
    simp only [List.map_cons, List.sum_cons, List.length_cons, h1, h2]
    rw [Nat.succ_mul]; omega

theorem CollectRun_count (n : PostgresCollector) (p : Metric → Bool)
    (hp : ∀ (name : String) (c : Collector) (s : server),
      (execute name c s).sent.countP p = (c.Update s).samples.countP p + 1)
    {out : List Metric} (h : CollectRun n out) :
    out.countP p = n.servers.len * n.Collectors.len + updateSent n p := by
  obtain ⟨outs, hf, hi⟩ := h
  rw [interleaving_countP p hi]
  exact forall₂_sum_count _ p _ (fun e => updateSentOn n p e.2) _ _ hf
    (fun e _ o ho => subCollectRun_count n e.2 p (fun name c => hp name c e.2) ho)

theorem updateSent_eq_zero (n : PostgresCollector) (p : Metric → Bool)
    (h : ∀ e ∈ n.servers.entries, ∀ c ∈ n.Collectors.entries, ∀ m ∈ (c.2.Update e.2).samples,
      p m = false) : updateSent n p = 0 := by
  unfold updateSent
  rw [sum_map_const n.servers.entries _ 0, Nat.mul_zero]
  intro e he
  unfold updateSentOn
  rw [sum_map_const n.Collectors.entries _ 0, Nat.mul_zero]
  intro c hc
  exact List.countP_eq_zero.mpr (fun m hm => by simp [h e he c hc m hm])

theorem subCollectRun_subCollect (n : PostgresCollector) (s : server) :
    subCollectRun n s (subCollect n s).sent := by
  unfold subCollectRun subCollect
  rw [sent_foldr_append]
  exact interleaving_flatten _

theorem CollectRun_Collect (n : PostgresCollector) : CollectRun n (Collect n).sent := by
  refine ⟨n.servers.entries.map (fun e => (subCollect n e.2).sent), ?_, ?_⟩
  · rw [List.forall₂_map_right_iff]
    exact List.forall₂_same.mpr (fun e _ => subCollectRun_subCollect n e.2)
  · unfold Collect
    rw [sent_foldr_append, List.map_map]
    exact interleaving_flatten _

theorem Collect_logged_length (n : PostgresCollector) :
    (Collect n).logged.length = n.servers.len * n.Collectors.len := by
  unfold Collect
  rw [logged_foldr_append, List.length_flatten, List.map_map, List.map_map]
  refine sum_map_const n.servers.entries _ n.Collectors.len (fun e _ => ?_)
  show (subCollect n e.2).logged.length = _
  unfold subCollect subCollectUnits
  rw [logged_foldr_append, List.length_flatten, List.map_map, List.map_map]
  exact (sum_map_const n.Collectors.entries _ 1 (fun c _ => rfl)).trans (Nat.mul_one _)

/-! ## The properties -/

/-- C1: for an orchestrator with N servers and M collectors, whatever each
`Update` returns, `Collect` can run to completion (the schedule that runs the
units in turn is one of its runs, and it logs one record per unit, N*M in all),
and in every run of `Collect`, under any interleaving of its goroutines, the
channel receives exactly N*M samples of the duration metric and exactly N*M
samples of the success metric from `execute`, on top of those the `Update`
calls send themselves; when the `Update` calls send domain samples only, these
are all the samples of the two metrics on the channel. -/
theorem Collect_meta_sample_count (n : PostgresCollector) :
    CollectRun n (Collect n).sent ∧
    (Collect n).logged.length = n.servers.len * n.Collectors.len ∧
    ∀ out : List Metric, CollectRun n out →
      out.countP Metric.isDuration
        = n.servers.len * n.Collectors.len + updateSent n Metric.isDuration ∧
      out.countP Metric.isSuccess
        = n.servers.len * n.Collectors.len + updateSent n Metric.isSuccess ∧
      (DomainOnly n →
        out.countP Metric.isDuration = n.servers.len * n.Collectors.len ∧
        out.countP Metric.isSuccess = n.servers.len * n.Collectors.len) := by
  refine ⟨CollectRun_Collect n, Collect_logged_length n, fun out h => ?_⟩
  have h1 := CollectRun_count n Metric.isDuration execute_countP_duration h
  have h2 := CollectRun_count n Metric.isSuccess execute_countP_success h
  refine ⟨h1, h2, fun hdom => ?_⟩
  rw [h1, h2, updateSent_eq_zero n _ (fun e he c hc m hm => (hdom e he c hc m hm).1),
    updateSent_eq_zero n _ (fun e he c hc m hm => (hdom e he c hc m hm).2)]
  exact ⟨rfl, rfl⟩

/-- C2: the success sample `execute` sends, last, carries the collector name as
its label value; its value is 1 exactly when `Update` returned nil, and it is 0
when `Update` returned `ErrNoData` and when it returned any other error. -/
theorem execute_success_value (name : String) (c : Collector) (s : server) :
    ∃ v : float64,
      (execute name c s).sent = (c.Update s).samples ++
        [⟨scrapeDurationDesc, .seconds (c.Update s).elapsed, [name]⟩,
          ⟨scrapeSuccessDesc, v, [name]⟩] ∧
      (v = float64.lit 1 ↔ (c.Update s).err = none) ∧
      ((c.Update s).err = some ErrNoData → v = float64.lit 0) ∧
      (∀ e : error, (c.Update s).err = some e → v = float64.lit 0) := by
  cases h : (c.Update s).err with
  | none => exact ⟨float64.lit 1, by simp [execute, h]⟩
  | some e =>
    by_cases hn : IsNoDataError (some e) = true
    · exact ⟨float64.lit 0, by simp [execute, h, hn]⟩
    · exact ⟨float64.lit 0, by simp [execute, h, hn]⟩

/-- C9: `execute` logs one record; its severity is error exactly when `Update`
returned a non-nil error other than the value `ErrNoData`, and debug for nil
and for `ErrNoData`. `IsNoDataError` holds of the value `ErrNoData` alone: an
error value made elsewhere with the same text is not it, and is logged at
error severity. -/
theorem execute_log_severity (name : String) (c : Collector) (s : server) :
    (∃ r : LogRecord, (execute name c s).logged = [r] ∧
      (r.lvl = Level.error ↔ ∃ e : error, (c.Update s).err = some e ∧ e ≠ ErrNoData) ∧
      ((c.Update s).err = none → r.lvl = Level.debug) ∧
      ((c.Update s).err = some ErrNoData → r.lvl = Level.debug) ∧
      (∀ id : Nat, (c.Update s).err = some (error.other id ErrNoData.Error) →
        r.lvl = Level.error)) ∧
    (∀ err : Option error, IsNoDataError err = true ↔ err = some ErrNoData) ∧
    (∀ id : Nat, (error.other id ErrNoData.Error).Error = ErrNoData.Error ∧
      IsNoDataError (some (error.other id ErrNoData.Error)) = false) := by
  refine ⟨?_, fun err => by simp [IsNoDataError], fun id => ⟨rfl, by simp [IsNoDataError, ErrNoData]⟩⟩
  cases h : (c.Update s).err with
  | none => exact ⟨_, rfl, by simp [execute, h]⟩
  | some e =>
    by_cases hn : e = ErrNoData
    · subst hn
      exact ⟨_, rfl, by simp [execute, h, IsNoDataError, ErrNoData]⟩
    · exact ⟨_, rfl, by simp [execute, h, IsNoDataError, hn]⟩

/-- C1 at the sample orchestrator: two servers and three collectors, one of
which returns nil, one `ErrNoData` and one an error of its own, give six
samples of each meta-metric. -/
theorem Collect_meta_sample_count_witness :
    DomainOnly sampleOrchestrator ∧
    (Collect sampleOrchestrator).sent.countP Metric.isDuration = 2 * 3 ∧
    (Collect sampleOrchestrator).sent.countP Metric.isSuccess = 2 * 3 :=
  have hdom : DomainOnly sampleOrchestrator := by
    intro e he c hc m hm
    revert m
    revert c
    revert e
    decide
  ⟨hdom,
    (((Collect_meta_sample_count sampleOrchestrator).2.2 _
      (Collect_meta_sample_count sampleOrchestrator).1).2.2 hdom).1,
    (((Collect_meta_sample_count sampleOrchestrator).2.2 _
      (Collect_meta_sample_count sampleOrchestrator).1).2.2 hdom).2⟩

/-- C3: when the filter list holds a name that the registry does not hold, and
every name before it is registered and enabled, `NewPostgresCollector` returns
a nil orchestrator and the error "missing collector: <name>" for that name, and
leaves the package variables as they were. -/
theorem NewPostgresCollector_missing_collector (makeServer : MakeServer) (g : Globals)
    (logger : Logger) (dsns pre post : List String) (name : String)
    (hpre : ∀ x ∈ pre, Enabled g.collectorState x)
    (hname : g.collectorState.lookup name = none) :
    NewPostgresCollector makeServer g logger dsns (pre ++ name :: post)
      = (g, Outcome.ret none (some (error.errorf ("missing collector: " ++ name)))) := by
  obtain ⟨f', hf'⟩ := filterLoop_append g.collectorState (name :: post) pre ∅ hpre
  unfold NewPostgresCollector
  rw [hf', filterLoop, hname]

/-- C3 at the sample registry: "nosuch" after the enabled "uptime". -/
theorem NewPostgresCollector_missing_collector_witness :
    (∀ x ∈ ["uptime"], Enabled sampleGlobals.collectorState x) ∧
    sampleGlobals.collectorState.lookup "nosuch" = none ∧
    NewPostgresCollector freshServer sampleGlobals nopLogger ["dsn1"]
        (["uptime"] ++ "nosuch" :: ["replication"])
      = (sampleGlobals, Outcome.ret none (some (error.errorf "missing collector: nosuch"))) :=
  have hpre : ∀ x ∈ ["uptime"], Enabled sampleGlobals.collectorState x := by
    intro x hx
    rw [List.mem_singleton] at hx
    subst hx
    exact ⟨sampleFlag "uptime" true, by decide, rfl⟩
  ⟨hpre, by decide,
    NewPostgresCollector_missing_collector freshServer sampleGlobals nopLogger ["dsn1"]
      ["uptime"] ["replication"] "nosuch" hpre (by decide)⟩

/-- C4: when the first name of the filter list that is not registered and
enabled is a registered name whose flag is off, `NewPostgresCollector` returns
a nil orchestrator and the error "disabled collector: <name>", and leaves the
package variables as they were. -/
theorem NewPostgresCollector_disabled_collector (makeServer : MakeServer) (g : Globals)
    (logger : Logger) (dsns pre post : List String) (name : String) (fl : Flag)
    (hpre : ∀ x ∈ pre, Enabled g.collectorState x)
    (hname : g.collectorState.lookup name = some fl) (hoff : fl.value = false) :
    NewPostgresCollector makeServer g logger dsns (pre ++ name :: post)
      = (g, Outcome.ret none (some (error.errorf ("disabled collector: " ++ name)))) := by
  obtain ⟨f', hf'⟩ := filterLoop_append g.collectorState (name :: post) pre ∅ hpre
  unfold NewPostgresCollector
  rw [hf', filterLoop, hname]
  simp [hoff]

/-- C4 at the sample registry: the disabled "wal" after the enabled "uptime". -/
theorem NewPostgresCollector_disabled_collector_witness :
    (∀ x ∈ ["uptime"], Enabled sampleGlobals.collectorState x) ∧
    sampleGlobals.collectorState.lookup "wal" = some (sampleFlag "wal" false) ∧
    NewPostgresCollector freshServer sampleGlobals nopLogger ["dsn1"]
        (["uptime"] ++ "wal" :: ["nosuch"])
      = (sampleGlobals, Outcome.ret none (some (error.errorf "disabled collector: wal"))) :=
  have hpre : ∀ x ∈ ["uptime"], Enabled sampleGlobals.collectorState x := by
    intro x hx
    rw [List.mem_singleton] at hx
    subst hx
    exact ⟨sampleFlag "uptime" true, by decide, rfl⟩
  ⟨hpre, by decide,
    NewPostgresCollector_disabled_collector freshServer sampleGlobals nopLogger ["dsn1"]
      ["uptime"] ["nosuch"] "wal" (sampleFlag "wal" false) hpre (by decide) rfl⟩

/-- C5: over any sequence of constructions, the factory of `k` returns an
instance at most once; an instance that a construction of the sequence got from
the factory of `k` is in `initiatedCollectors` under `k` afterwards; and once
`initiatedCollectors` holds `c` under `k`, it holds it after every later
construction, the factory of `k` is not called with success again, and every
later call that returns an orchestrator with `k` among its collectors returns
that same `c` under `k`, in whatever order that call ranges over
`collectorState`. -/
theorem initiatedCollectors_reuse (makeServer : MakeServer) (g g1 : Globals) (k : String)
    (hseq : Constructions makeServer g g1) :
    okCount k g1.calls ≤ okCount k g.calls + 1 ∧
    (∀ lg c, Event.factory k lg (.ok c) ∈ newCalls g g1 →
      g1.initiatedCollectors.lookup k = some c) ∧
    (∀ c, g.initiatedCollectors.lookup k = some c →
      g1.initiatedCollectors.lookup k = some c ∧
      (∀ ev ∈ newCalls g g1, ev.factoryKey ≠ some k) ∧
      okCount k g1.calls = okCount k g.calls ∧
      ∀ logger dsns filters (cs : GoMap Flag) g2 pc,
        cs.entries.Perm g1.collectorState.entries →
        NewPostgresCollector makeServer { g1 with collectorState := cs } logger dsns filters
          = (g2, .ret (some pc) none) →
        k ∈ pc.Collectors.keys → pc.Collectors.lookup k = some c) := by
  obtain ⟨tr, ht⟩ := constructions_trace hseq
  have hnew : newCalls g g1 = tr.reverse := newCalls_eq g g1 tr ht.calls_eq
  refine ⟨?_, ?_, ?_⟩
  · rw [ht.calls_eq, okCount_append]
    have := ht.once k
    omega
  · intro lg c hev
    rw [hnew, List.mem_reverse] at hev
    exact ht.stored k lg c hev
  · intro c hc
    have hfresh : ∀ ev ∈ tr, ev.factoryKey ≠ some k := by
      intro ev hev hkey
      have h5 := ht.fresh ev hev k hkey
      rw [hc] at h5
      exact Option.noConfusion h5
    refine ⟨ht.mono k c hc, ?_, ?_, ?_⟩
    · intro ev hev
      rw [hnew, List.mem_reverse] at hev
      exact hfresh ev hev
    · rw [ht.calls_eq, okCount_append, okCount_eq_zero_of_fresh k tr hfresh, Nat.zero_add]
    · intro logger dsns filters cs g2 pc _ h hk
      obtain ⟨f, tr1, tr2, _, hl, hd, _, _, _, _⟩ :=
        NewPostgresCollector_ok_inv makeServer { g1 with collectorState := cs } logger dsns
          filters g2 pc h
      have hcache := hl.mono k c (ht.mono k c hc)
      rcases (collectorLoop_done logger f cs.entries ∅ { g1 with collectorState := cs }
        pc.Collectors hd).2 k with h3 | h3
      · have hmem : k ∈ pc.Collectors := AList.mem_keys.mpr hk
        rw [← AList.lookup_isSome, h3] at hmem
        simp at hmem
      · rw [h3, hcache]

/-- C5 at the sample registry: a first construction instantiates "uptime" (the
factory returns the instance of address 100) and stores it; a second
construction over the stored state returns that instance again, although the
factory would now return another one. -/
theorem initiatedCollectors_reuse_witness :
    Constructions freshServer sampleGlobals sampleGlobalsAfter ∧
    okCount "uptime" sampleGlobalsAfter.calls ≤ okCount "uptime" sampleGlobals.calls + 1 ∧
    sampleGlobalsAfter.initiatedCollectors.lookup "uptime"
      = some { uptimeCollector with addr := 100 } ∧
    NewPostgresCollector freshServer sampleGlobalsAfter nopLogger ["dsn2"] ["uptime"]
      = ((NewPostgresCollector freshServer sampleGlobalsAfter nopLogger ["dsn2"] ["uptime"]).1,
          Outcome.ret (some reusedOrchestrator) none) ∧
    reusedOrchestrator.Collectors.lookup "uptime" = some { uptimeCollector with addr := 100 } ∧
    ((sampleGlobalsAfter.factories.lookup "uptime").map
      (fun create => (create nopLogger sampleGlobalsAfter.calls.length).toOption.map
        Collector.addr)) = some (some 102) :=
  have hseq : Constructions freshServer sampleGlobals sampleGlobalsAfter :=
    Constructions.step nopLogger ["dsn1"] ["uptime"] sampleGlobals.collectorState
      (Constructions.refl sampleGlobals) (List.Perm.refl _)
  have hstored : sampleGlobalsAfter.initiatedCollectors.lookup "uptime"
      = some { uptimeCollector with addr := 100 } :=
    (initiatedCollectors_reuse freshServer sampleGlobals sampleGlobalsAfter "uptime" hseq).2.1
      (nopLogger.With "collector" "uptime") { uptimeCollector with addr := 100 }
      (List.Mem.head _)
  ⟨hseq,
    (initiatedCollectors_reuse freshServer sampleGlobals sampleGlobalsAfter "uptime" hseq).1,
    hstored, rfl,
    ((initiatedCollectors_reuse freshServer sampleGlobalsAfter sampleGlobalsAfter "uptime"
      (Constructions.refl sampleGlobalsAfter)).2.2 _ hstored).2.2.2
      nopLogger ["dsn2"] ["uptime"] sampleGlobalsAfter.collectorState _ reusedOrchestrator
      (List.Perm.refl _) rfl (by decide),
    by decide⟩

/-- C6: when, during a call of `NewPostgresCollector`, the factory of `k` is
called and returns an error, then `k` was not in `initiatedCollectors` before
the call, the call returns a nil orchestrator with exactly that error, and `k`
is not in `initiatedCollectors` after the call. -/
theorem NewPostgresCollector_factory_error (makeServer : MakeServer) (g : Globals)
    (logger : Logger) (dsns filters : List String) (k : String) (lg : Logger) (e : error)
    (h : Event.factory k lg (.error e)
      ∈ newCalls g (NewPostgresCollector makeServer g logger dsns filters).1) :
    g.initiatedCollectors.lookup k = none ∧
    (NewPostgresCollector makeServer g logger dsns filters).2 = Outcome.ret none (some e) ∧
    (NewPostgresCollector makeServer g logger dsns filters).1.initiatedCollectors.lookup k
      = none := by
  obtain ⟨tr, ht⟩ := NewPostgresCollector_trace makeServer g logger dsns filters
  rw [newCalls_eq g _ tr ht.calls_eq, List.mem_reverse] at h
  exact ⟨ht.fresh _ h k rfl, ht.failed k lg e h⟩

/-- C6 at the sample registry: the factory of "broken" fails. -/
theorem NewPostgresCollector_factory_error_witness :
    Event.factory "broken" (nopLogger.With "collector" "broken") (.error prepareError)
      ∈ newCalls sampleGlobals
        (NewPostgresCollector freshServer sampleGlobals nopLogger ["dsn1"] ["broken"]).1 ∧
    (NewPostgresCollector freshServer sampleGlobals nopLogger ["dsn1"] ["broken"]).2
      = Outcome.ret none (some prepareError) ∧
    (NewPostgresCollector freshServer sampleGlobals nopLogger ["dsn1"]
      ["broken"]).1.initiatedCollectors.lookup "broken" = none :=
  ⟨List.Mem.head _,
    (NewPostgresCollector_factory_error freshServer sampleGlobals nopLogger ["dsn1"] ["broken"]
      "broken" (nopLogger.With "collector" "broken") prepareError (List.Mem.head _)).2⟩

/-- C7, as stated, fails: in a registry that holds "uptime", a second
`registerCollector` for "uptime" is not refused, where the contract of the spec
reports `DuplicateNameError`; it puts the new flag and the new factory in the
place of the old ones. -/
theorem registerCollector_duplicate_accepted :
    "uptime" ∈ (registerCollector emptyGlobals "uptime" true
        (fun _ _ => .ok uptimeCollector)).collectorState.keys ∧
    (match specRegister (registerCollector emptyGlobals "uptime" true
        (fun _ _ => .ok uptimeCollector)) "uptime" false (fun _ _ => .error prepareError) with
      | .error msg => some msg
      | .ok _ => none) = some "DuplicateNameError" ∧
    ((registerCollector (registerCollector emptyGlobals "uptime" true
        (fun _ _ => .ok uptimeCollector)) "uptime" false
        (fun _ _ => .error prepareError)).collectorState.lookup "uptime").map Flag.dflt
      = some "false" ∧
    ((registerCollector emptyGlobals "uptime" true
        (fun _ _ => .ok uptimeCollector)).collectorState.lookup "uptime").map Flag.dflt
      = some "true" ∧
    ((registerCollector (registerCollector emptyGlobals "uptime" true
        (fun _ _ => .ok uptimeCollector)) "uptime" false
        (fun _ _ => .error prepareError)).factories.lookup "uptime").map
        (fun create => (create nopLogger 0).toOption.map Collector.addr)
      = some none := by
  refine ⟨by decide, by decide, by decide, by decide, by decide⟩

/-- C7 as amended: `registerCollector` never refuses. For a name the registry
already holds, the call puts the new flag and the new factory under that name,
leaves every other name as it was, and leaves the registry with the same
names, each once. -/
theorem registerCollector_overwrites (g : Globals) (name : String) (isDefaultEnabled : Bool)
    (createFunc : Factory) (h : name ∈ g.collectorState.keys) :
    (registerCollector g name isDefaultEnabled createFunc).collectorState.lookup name
      = some { name := "collector." ++ name
               help := "Enable the " ++ name ++ " collector (default: "
                 ++ (if isDefaultEnabled then "enabled" else "disabled") ++ ")."
               dflt := sprintBool isDefaultEnabled
               value := false } ∧
    (registerCollector g name isDefaultEnabled createFunc).factories.lookup name
      = some createFunc ∧
    (∀ k, k ≠ name →
      (registerCollector g name isDefaultEnabled createFunc).collectorState.lookup k
        = g.collectorState.lookup k ∧
      (registerCollector g name isDefaultEnabled createFunc).factories.lookup k
        = g.factories.lookup k) ∧
    (registerCollector g name isDefaultEnabled createFunc).collectorState.keys.Perm
      g.collectorState.keys ∧
    (registerCollector g name isDefaultEnabled createFunc).collectorState.keys.Nodup ∧
    (registerCollector g name isDefaultEnabled createFunc).initiatedCollectors
      = g.initiatedCollectors := by
  refine ⟨AList.lookup_insert _, AList.lookup_insert _, fun k hk =>
    ⟨AList.lookup_insert_ne hk, AList.lookup_insert_ne hk⟩, ?_, AList.keys_nodup _, rfl⟩
  show (g.collectorState.insert name _).keys.Perm _
  rw [AList.keys_insert]
  exact (List.perm_cons_erase h).symm

/-- C7 as amended, at a registry that holds "uptime". -/
theorem registerCollector_overwrites_witness :
    "uptime" ∈ (registerCollector emptyGlobals "uptime" true
        (fun _ _ => .ok uptimeCollector)).collectorState.keys ∧
    (registerCollector (registerCollector emptyGlobals "uptime" true
        (fun _ _ => .ok uptimeCollector)) "uptime" false
        (fun _ _ => .error prepareError)).collectorState.keys.Perm
      (registerCollector emptyGlobals "uptime" true
        (fun _ _ => .ok uptimeCollector)).collectorState.keys :=
  ⟨by decide,
    (registerCollector_overwrites (registerCollector emptyGlobals "uptime" true
      (fun _ _ => .ok uptimeCollector)) "uptime" false (fun _ _ => .error prepareError)
      (by decide)).2.2.2.1⟩

/-- C8, as stated, fails: with a `makeServer` that never fails and the
descriptor list ["a", "a"], which holds one distinct descriptor,
`NewPostgresCollector` returns an orchestrator and has called `makeServer`
twice for "a". -/
theorem makeServer_called_per_element :
    (∀ dsn t, (freshServer dsn t).toOption.isSome = true) ∧
    ["a", "a"].dedup = ["a"] ∧
    (match (NewPostgresCollector freshServer emptyGlobals nopLogger ["a", "a"] []).2 with
      | .ret (some pc) none => some pc.servers.keys
      | _ => none) = some ["a"] ∧
    serverCallCount "a"
      (NewPostgresCollector freshServer emptyGlobals nopLogger ["a", "a"] []).1.calls = 2 := by
  refine ⟨fun _ _ => rfl, by decide, by decide, by decide⟩

/-- C8 as amended: whenever `NewPostgresCollector` returns an orchestrator, it
has called `makeServer` once for each element of the descriptor list, in the
order of the list (so as many times for a descriptor as the list holds it); the
map `servers` of the orchestrator holds exactly the descriptors of the list,
each once, and the handle under a descriptor is one that `makeServer` returned
for that descriptor during the call. -/
theorem NewPostgresCollector_servers (makeServer : MakeServer) (g : Globals) (logger : Logger)
    (dsns filters : List String) (g' : Globals) (pc : PostgresCollector)
    (h : NewPostgresCollector makeServer g logger dsns filters = (g', .ret (some pc) none)) :
    (newCalls g g').filterMap Event.serverDsn = dsns ∧
    (∀ d, serverCallCount d (newCalls g g') = dsns.count d) ∧
    (∀ d, d ∈ pc.servers.keys ↔ d ∈ dsns) ∧
    pc.servers.keys.Nodup ∧
    (∀ d s, pc.servers.lookup d = some s →
      Event.makeServer d (.ok s) ∈ newCalls g g') := by
  obtain ⟨f, tr, tr2, _, hl, _, hs, hsv, hcalls, _⟩ :=
    NewPostgresCollector_ok_inv makeServer g logger dsns filters g' pc h
  obtain ⟨h1, h2, h3⟩ := hs.on_ok pc.servers hsv
  have hnew : newCalls g g' = tr.reverse ++ tr2.reverse := by
    rw [newCalls_eq g g' (tr2 ++ tr) hcalls, List.reverse_append]
  have hfac : tr.reverse.filterMap Event.serverDsn = [] := by
    rw [List.filterMap_eq_nil_iff]
    intro ev hev
    obtain ⟨key, lg, res, rfl, _⟩ := hl.fresh ev (List.mem_reverse.mp hev)
    rfl
  have hmap : (newCalls g g').filterMap Event.serverDsn = dsns := by
    rw [hnew, List.filterMap_append, hfac, List.nil_append, h1]
  refine ⟨hmap, fun d => ?_, fun d => ?_, AList.keys_nodup _, fun d s hd => ?_⟩
  · unfold serverCallCount
    rw [hmap]
  · rw [← AList.mem_keys, h2 d]
    simp
  · rcases h3 d s hd with h4 | h4
    · simp at h4
    · rw [hnew]
      exact List.mem_append_right _ (List.mem_reverse.mpr h4)

/-- C8 as amended, at the descriptor list ["a", "a"]: two calls of
`makeServer` for "a", one handle under "a", the one of the second call. -/
theorem NewPostgresCollector_servers_witness :
    NewPostgresCollector freshServer emptyGlobals nopLogger ["a", "a"] []
      = ((NewPostgresCollector freshServer emptyGlobals nopLogger ["a", "a"] []).1,
          Outcome.ret (some twiceOrchestrator) none) ∧
    (∀ d, serverCallCount d (newCalls emptyGlobals
        (NewPostgresCollector freshServer emptyGlobals nopLogger ["a", "a"] []).1)
      = ["a", "a"].count d) ∧
    twiceOrchestrator.servers.keys = ["a"] ∧
    twiceOrchestrator.servers.lookup "a" = some ⟨1⟩ :=
  ⟨rfl,
    (NewPostgresCollector_servers freshServer emptyGlobals nopLogger ["a", "a"] []
      (NewPostgresCollector freshServer emptyGlobals nopLogger ["a", "a"] []).1
      twiceOrchestrator rfl).2.1,
    by decide, by decide⟩

/-- C10: whenever `NewPostgresCollector` returns an orchestrator, the keys of
its map `Collectors` are, for an empty filter list, exactly the registered
names whose flag is on, and, for a non-empty filter list, exactly the names of
the list; in both cases every name of the list and every key of `Collectors`
is registered with its flag on. -/
theorem NewPostgresCollector_active_set (makeServer : MakeServer) (g : Globals)
    (logger : Logger) (dsns filters : List String) (g' : Globals) (pc : PostgresCollector)
    (h : NewPostgresCollector makeServer g logger dsns filters = (g', .ret (some pc) none)) :
    (filters = [] → ∀ k, k ∈ pc.Collectors.keys ↔ Enabled g.collectorState k) ∧
    (filters ≠ [] → ∀ k, k ∈ pc.Collectors.keys ↔ k ∈ filters) ∧
    (∀ k ∈ filters, Enabled g.collectorState k) ∧
    (∀ k ∈ pc.Collectors.keys, Enabled g.collectorState k) := by
  obtain ⟨f, tr, tr2, hf, _, hd, _, _, _, _⟩ :=
    NewPostgresCollector_ok_inv makeServer g logger dsns filters g' pc h
  obtain ⟨hen, hmem, hidx⟩ := filterLoop_ok g.collectorState filters ∅ f hf
  have hkeys : ∀ k, k ∈ pc.Collectors.keys ↔
      ∃ fl, g.collectorState.lookup k = some fl ∧ fl.value = true ∧
        (f.len = 0 ∨ f.index k = true) := by
    intro k
    rw [← AList.mem_keys,
      (collectorLoop_done logger f g.collectorState.entries ∅ g pc.Collectors hd).1 k]
    simp only [AList.not_mem_empty, false_or, skipped_eq_false]
    constructor
    · rintro ⟨fl, hfl, hact⟩
      exact ⟨fl, Option.mem_def.mp (AList.mem_lookup_iff.mpr hfl), hact⟩
    · rintro ⟨fl, hfl, hact⟩
      exact ⟨fl, AList.mem_lookup_iff.mp (Option.mem_def.mpr hfl), hact⟩
  have hidx' : ∀ k, f.index k = true ↔ k ∈ filters := by
    intro k
    rw [hidx k]
    simp [GoMap.index]
  have hall : ∀ k ∈ pc.Collectors.keys, Enabled g.collectorState k := by
    intro k hk
    obtain ⟨fl, hfl, hv, _⟩ := (hkeys k).mp hk
    exact ⟨fl, hfl, hv⟩
  refine ⟨?_, ?_, hen, hall⟩
  · intro hnil k
    subst hnil
    simp only [filterLoop, Except.ok.injEq] at hf
    subst hf
    rw [hkeys k]
    constructor
    · rintro ⟨fl, hfl, hv, _⟩
      exact ⟨fl, hfl, hv⟩
    · rintro ⟨fl, hfl, hv⟩
      exact ⟨fl, hfl, hv, Or.inl rfl⟩
  · intro hne k
    have hlen : f.len ≠ 0 := by
      obtain ⟨x, rest, rfl⟩ := List.exists_cons_of_ne_nil hne
      have hx : x ∈ f := (hmem x).mpr (Or.inl (List.mem_cons_self x rest))
      have hx' : x ∈ f.keys := AList.mem_keys.mp hx
      intro h0
      have hnil : f.keys = [] := List.length_eq_zero.mp (by
        unfold GoMap.len at h0
        simpa [AList.keys, List.keys] using h0)
      rw [hnil] at hx'
      exact List.not_mem_nil _ hx'
    rw [hkeys k]
    constructor
    · rintro ⟨fl, _, _, h0 | hi⟩
      · exact absurd h0 hlen
      · exact (hidx' k).mp hi
    · intro hk
      obtain ⟨fl, hfl, hv⟩ := hen k hk
      exact ⟨fl, hfl, hv, Or.inr ((hidx' k).mpr hk)⟩

/-- C10 at the sample registry, with the filter list ["uptime"]: of the three
enabled collectors the orchestrator holds "uptime" alone. -/
theorem NewPostgresCollector_active_set_witness :
    NewPostgresCollector freshServer sampleGlobals nopLogger ["dsn1"] ["uptime"]
      = (sampleGlobalsAfter, Outcome.ret (some uptimeOrchestrator) none) ∧
    (∀ k, k ∈ uptimeOrchestrator.Collectors.keys ↔ k ∈ ["uptime"]) ∧
    uptimeOrchestrator.Collectors.keys = ["uptime"] :=
  ⟨rfl,
    (NewPostgresCollector_active_set freshServer sampleGlobals nopLogger ["dsn1"] ["uptime"]
      sampleGlobalsAfter uptimeOrchestrator rfl).2.1 (by decide),
    by decide⟩

end collector
